import Mathlib

/-!
Shallow embedding of the zkaster-stealth-sdk core (src/core.ts, src/utils.ts,
src/types.ts).

Modelling conventions:
* JavaScript strings (hex keys, addresses, view tags) are `List Char`.
* `Uint8Array` values are `List Nat` whose elements are < 256.
* A thrown exception is an `Except`/`Option` failure; each distinct
  `throw new Error(...)` site of the source gets its own error constructor
  (the source's outer catch in `computeECDH` re-wraps every inner error with
  the uniform prefix "ECDH computation failed:", which preserves the inner
  message, so the constructors stay distinguishable).
* The external viem / noble-curves primitives (secp256k1 point arithmetic,
  keccak-256 and the account-address formatter `privateKeyToAccount`) are a
  trusted adapter (`CurveAdapter`), exactly the "Curve/Hash Adapter"
  external collaborator of the repository spec.  Theorems state the library
  facts they rely on (ECDH commutativity, keccak output format, point
  encoding normalization) as explicit hypotheses; the executable
  `toyAdapter` below instantiates them for the concrete witnesses.
* `generatePrivateKey()` (fresh randomness) and `Date.now()` are modelled by
  explicit parameters.
-/

set_option maxRecDepth 10000

namespace StealthSDK

/-- A hex digit of value `n` as produced by `Number.prototype.toString(16)`:
lowercase. -/
def hexDigit (n : Nat) : Char :=
  if n < 10 then Char.ofNat (48 + n) else Char.ofNat (87 + n)

/-- The numeric value of a hex-digit character, as accepted by JavaScript
`parseInt(..., 16)` and viem's `charCodeToBase16`: digits, lowercase and
uppercase letters. -/
def hexDigitVal (c : Char) : Option Nat :=
  if 48 ≤ c.toNat ∧ c.toNat ≤ 57 then some (c.toNat - 48)
  else if 97 ≤ c.toNat ∧ c.toNat ≤ 102 then some (c.toNat - 87)
  else if 65 ≤ c.toNat ∧ c.toNat ≤ 70 then some (c.toNat - 55)
  else none

/-- Does the string start with the two characters 0x (case-sensitive, as
JavaScript `startsWith("0x")`)? -/
def startsWith0x : List Char → Bool
  | '0' :: 'x' :: _ => true
  | _ => false

/-- The idiom `s.startsWith("0x") ? s : "0x" + s` used throughout core.ts. -/
def ensure0x (s : List Char) : List Char :=
  if startsWith0x s then s else '0' :: 'x' :: s

/-- JavaScript `String.prototype.toLowerCase` on one character, for the ASCII
range that hex strings and addresses use. -/
def lcChar (c : Char) : Char :=
  if 65 ≤ c.toNat ∧ c.toNat ≤ 90 then Char.ofNat (c.toNat + 32) else c

/-- JavaScript `String.prototype.toLowerCase` (ASCII range). -/
def lcStr (s : List Char) : List Char := s.map lcChar

/-- JavaScript `s.replace(/^0x/, "")`: drop one leading literal 0x. -/
def strip0x (s : List Char) : List Char :=
  match s with
  | '0' :: 'x' :: t => t
  | _ => s

/-- JavaScript `parseInt(p, 16)` on a two-character chunk `p`, coerced through
a `Uint8Array` element store (`NaN` is stored as 0).  `parseInt` parses the
longest valid prefix; no valid prefix gives `NaN`, hence 0.  (A leading
literal 0x/0X chunk also gives `NaN`, hence 0, which coincides with parsing
the digit 0.) -/
def jsParseHex2 (a b : Char) : Nat :=
  match hexDigitVal a with
  | none => 0
  | some x =>
    match hexDigitVal b with
    | none => x
    | some y => 16 * x + y

/-- The parsing loop of `hexToUint8Array` (utils.ts): consume the string two
characters at a time with `parseInt(hexStr.substr(i, 2), 16)`. -/
def parsePairs : List Char → List Nat
  | a :: b :: rest => jsParseHex2 a b :: parsePairs rest
  | _ => []

/-- utils.ts `hexToUint8Array`: strip a 0x prefix when present, then parse hex
pairs.  On an odd-length body `new Uint8Array(hexStr.length / 2)` receives a
non-integer length and throws a `RangeError`, modelled as `none`. -/
def hexToUint8Array (hex : List Char) : Option (List Nat) :=
  let hexStr := if startsWith0x hex then hex.drop 2 else hex
  if hexStr.length % 2 = 1 then none
  else some (parsePairs hexStr)

/-- The body of utils.ts `uint8ArrayToHex` / viem `toHex`:
`b.toString(16).padStart(2, "0")` for each byte (`Uint8Array` elements are
< 256, so this is exactly the two nibble digits). -/
def bytesToHexChars : List Nat → List Char
  | [] => []
  | b :: rest => hexDigit (b / 16 % 16) :: hexDigit (b % 16) :: bytesToHexChars rest

/-- utils.ts `uint8ArrayToHex`: lowercase hex with a 0x prefix. -/
def uint8ArrayToHex (bytes : List Nat) : List Char :=
  '0' :: 'x' :: bytesToHexChars bytes

/-- viem `toHex` on a `Uint8Array`: the same lowercase-0x encoding. -/
def toHex (bytes : List Nat) : List Char :=
  '0' :: 'x' :: bytesToHexChars bytes

/-- The strict pair-parsing loop of viem `hexToBytes`: any character that is
not a hex digit throws. -/
def strictParsePairs : List Char → Option (List Nat)
  | [] => some []
  | a :: b :: rest =>
    match hexDigitVal a, hexDigitVal b with
    | some x, some y =>
      match strictParsePairs rest with
      | some bs => some ((16 * x + y) :: bs)
      | none => none
    | _, _ => none
  | _ => none

/-- viem `hexToBytes`: drop the first two characters (`hex.slice(2)`), left-pad
an odd-length body with the digit 0, then parse strictly. -/
def hexToBytes (hex : List Char) : Option (List Nat) :=
  let hexString := hex.drop 2
  let padded := if hexString.length % 2 = 1 then '0' :: hexString else hexString
  strictParsePairs padded

/-- The external viem / noble-curves primitives consumed by the SDK (the
spec's "Curve/Hash Adapter").  `none` models a thrown library error. -/
structure CurveAdapter where
  getPublicKey : List Nat → Option (List Nat)
  getSharedSecret : List Nat → List Nat → Option (List Nat)
  keccak256 : List Char → List Char
  privateKeyToAccountAddress : List Char → Option (List Char)

/-- types.ts `StealthKeys`. -/
structure StealthKeys where
  spendingPrivateKey : List Char
  viewingPrivateKey : List Char
  spendingPublicKey : List Char
  viewingPublicKey : List Char
  deriving DecidableEq, Repr

/-- types.ts `StealthAddress`. -/
structure StealthAddress where
  address : List Char
  ephemeralPublicKey : List Char
  viewTag : List Char
  deriving DecidableEq, Repr

/-- types.ts `StealthMetadata`. -/
structure StealthMetadata where
  stealthAddress : List Char
  ephemeralPublicKey : List Char
  viewTag : List Char
  network : List Char
  createdAt : Nat
  deriving DecidableEq, Repr

/-- The distinct failure sites of core.ts `computeECDH`.  The outer catch
wraps each in the uniform message "ECDH computation failed: <inner>", keeping
the inner messages distinguishable. -/
inductive ECDHError where
  | missingKey
  | invalidPrivateKeyLength (len : Nat)
  | invalidPublicKeyLength (len : Nat)
  | oddHexLength
  | curveError
  deriving DecidableEq, Repr

/-- utils.ts `derivePublicKey`: compressed secp256k1 public key of a private
key, as a lowercase-0x hex string. -/
def derivePublicKey (A : CurveAdapter) (privateKey : List Char) : Option (List Char) :=
  match hexToUint8Array privateKey with
  | none => none
  | some privBytes =>
    match A.getPublicKey privBytes with
    | none => none
    | some pubKey => some (uint8ArrayToHex pubKey)

/-- core.ts `computeECDH`: normalize both keys to 0x form, validate the string
lengths (66 for the scalar, 68 or 132 for the point), then hash the compressed
shared point. -/
def computeECDH (A : CurveAdapter) (privateKey publicKey : List Char) :
    Except ECDHError (List Char) :=
  if privateKey = [] ∨ publicKey = [] then .error .missingKey
  else
    let privKey := ensure0x privateKey
    let pubKey := ensure0x publicKey
    if privKey.length ≠ 66 then .error (.invalidPrivateKeyLength privKey.length)
    else
      let pubKeyHexLength := pubKey.length - 2
      if pubKeyHexLength ≠ 66 ∧ pubKeyHexLength ≠ 130 then
        .error (.invalidPublicKeyLength pubKey.length)
      else
        match hexToUint8Array privKey, hexToUint8Array pubKey with
        | some privBytes, some pubBytes =>
          match A.getSharedSecret privBytes pubBytes with
          | some sharedPoint => .ok (A.keccak256 (uint8ArrayToHex sharedPoint))
          | none => .error .curveError
        | _, _ => .error .oddHexLength

/-- core.ts `generateStealthKeys`; the two `generatePrivateKey()` outputs are
the explicit arguments. -/
def generateStealthKeys (A : CurveAdapter)
    (spendingPrivateKey viewingPrivateKey : List Char) : Option StealthKeys :=
  match derivePublicKey A spendingPrivateKey with
  | none => none
  | some spendingPublicKey =>
    match derivePublicKey A viewingPrivateKey with
    | none => none
    | some viewingPublicKey =>
      some ⟨spendingPrivateKey, viewingPrivateKey, spendingPublicKey, viewingPublicKey⟩

/-- The failure sites of core.ts `generateStealthAddress` (everything beyond
the explicit format check is a propagated library / codec error). -/
inductive GenError where
  | invalidViewingPublicKeyFormat
  | ephemeralKeyDerivationFailed
  | ecdhFailed (e : ECDHError)
  | hexDecodeFailed
  | accountDerivationFailed
  deriving DecidableEq, Repr

/-- core.ts `generateStealthAddress`.  `freshKey` models the
`generatePrivateKey()` fallback used when `ephemeralPrivateKey` is absent
(JavaScript `||`, so an empty string also falls through). -/
def generateStealthAddress (A : CurveAdapter) (viewingPublicKey : List Char)
    (spendingPublicKey : Option (List Char)) (ephemeralPrivateKey : Option (List Char))
    (freshKey : List Char) : Except GenError StealthAddress :=
  let normalizedViewingPub := ensure0x viewingPublicKey
  let viewingPubHexLength := normalizedViewingPub.length - 2
  if viewingPubHexLength ≠ 66 ∧ viewingPubHexLength ≠ 130 then
    .error .invalidViewingPublicKeyFormat
  else
    let ephemeralKey :=
      match ephemeralPrivateKey with
      | some k => if k = [] then freshKey else k
      | none => freshKey
    match derivePublicKey A ephemeralKey with
    | none => .error .ephemeralKeyDerivationFailed
    | some ephemeralPublicKey =>
      match computeECDH A ephemeralKey normalizedViewingPub with
      | .error e => .error (.ecdhFailed e)
      | .ok sharedSecret =>
        match hexToBytes sharedSecret with
        | none => .error .hexDecodeFailed
        | some sharedSecretBytes =>
          match hexToBytes normalizedViewingPub with
          | none => .error .hexDecodeFailed
          | some viewingPubBytes =>
            let combined := sharedSecretBytes ++ viewingPubBytes
            let stealthPrivateKey := A.keccak256 (toHex combined)
            match A.privateKeyToAccountAddress stealthPrivateKey with
            | none => .error .accountDerivationFailed
            | some address =>
              let viewTag := lcStr ((sharedSecret.drop 2).take 2)
              .ok ⟨address, ephemeralPublicKey, viewTag⟩

/-- The only failure core.ts `scanStealthAddresses` can propagate. -/
inductive ScanError where
  | missingViewingKeys
  deriving DecidableEq, Repr

/-- The body of the per-record loop of core.ts `scanStealthAddresses`
(lines 120-159).  Every `continue` and every caught per-record exception is
`none`; a push onto `discovered` is `some`. -/
def processRecord (A : CurveAdapter) (viewingPriv viewingPub : List Char)
    (meta : StealthMetadata) : Option StealthAddress :=
  if meta.stealthAddress = [] ∨ meta.ephemeralPublicKey = [] ∨ meta.viewTag = [] then none
  else
    let ephemeralPub := ensure0x meta.ephemeralPublicKey
    match computeECDH A viewingPriv ephemeralPub with
    | .error _ => none
    | .ok sharedSecret =>
      let computedViewTag := lcStr ((sharedSecret.drop 2).take 2)
      let storedViewTag := strip0x (lcStr meta.viewTag)
      if computedViewTag ≠ storedViewTag then none
      else
        match hexToBytes sharedSecret with
        | none => none
        | some sharedSecretBytes =>
          match hexToBytes viewingPub with
          | none => none
          | some viewingPubBytes =>
            let combined := sharedSecretBytes ++ viewingPubBytes
            let stealthPrivateKey := A.keccak256 (toHex combined)
            match A.privateKeyToAccountAddress stealthPrivateKey with
            | none => none
            | some address =>
              if lcStr address = lcStr meta.stealthAddress then
                some ⟨meta.stealthAddress, ephemeralPub, meta.viewTag⟩
              else none

/-- core.ts `scanStealthAddresses`: check the viewing keys, normalize them,
then fold the per-record loop; pushes accumulate in input order. -/
def scanStealthAddresses (A : CurveAdapter)
    (viewingPrivateKey viewingPublicKey : List Char)
    (stealthMetadata : List StealthMetadata) :
    Except ScanError (List StealthAddress) :=
  if viewingPrivateKey = [] ∨ viewingPublicKey = [] then .error .missingViewingKeys
  else
    .ok (stealthMetadata.filterMap
      (processRecord A (ensure0x viewingPrivateKey) (ensure0x viewingPublicKey)))

/-- The failure sites of core.ts `deriveStealthSpendingKey`. -/
inductive DeriveError where
  | ecdhFailed (e : ECDHError)
  | viewingKeyDerivationFailed
  | hexDecodeFailed
  | accountDerivationFailed
  | derivedAddressMismatch
  deriving DecidableEq, Repr

/-- core.ts `deriveStealthSpendingKey`.  A falsy (absent or empty)
`viewingPublicKey` is re-derived from `viewingPrivateKey`. -/
def deriveStealthSpendingKey (A : CurveAdapter)
    (spendingPrivateKey viewingPrivateKey stealthAddress ephemeralPublicKey : List Char)
    (viewingPublicKey : Option (List Char)) : Except DeriveError (List Char) :=
  match computeECDH A viewingPrivateKey ephemeralPublicKey with
  | .error e => .error (.ecdhFailed e)
  | .ok sharedSecret =>
    match (match viewingPublicKey with
           | some v => if v = [] then derivePublicKey A viewingPrivateKey else some v
           | none => derivePublicKey A viewingPrivateKey) with
    | none => .error .viewingKeyDerivationFailed
    | some viewingPub =>
      match hexToBytes sharedSecret with
      | none => .error .hexDecodeFailed
      | some sharedSecretBytes =>
        match hexToBytes viewingPub with
        | none => .error .hexDecodeFailed
        | some viewingPubBytes =>
          let combined := sharedSecretBytes ++ viewingPubBytes
          let stealthPrivateKey := A.keccak256 (toHex combined)
          match A.privateKeyToAccountAddress stealthPrivateKey with
          | none => .error .accountDerivationFailed
          | some derivedAddress =>
            if lcStr derivedAddress ≠ lcStr stealthAddress then
              .error .derivedAddressMismatch
            else .ok stealthPrivateKey

/-- core.ts `createStealthMetadata`; `Date.now()` is the explicit `now`
argument. -/
def createStealthMetadata (stealthAddress : StealthAddress) (network : List Char)
    (now : Nat) : StealthMetadata :=
  ⟨stealthAddress.address, stealthAddress.ephemeralPublicKey,
    stealthAddress.viewTag, network, now⟩

/-- Elements of a `Uint8Array` are below 256. -/
def Bytes256 (bs : List Nat) : Prop := ∀ b ∈ bs, b < 256

/-- A lowercase hex digit or a decimal digit character. -/
def isHexLower (c : Char) : Bool :=
  (48 ≤ c.toNat && c.toNat ≤ 57) || (97 ≤ c.toNat && c.toNat ≤ 102)

/-- A well-formed 0x-prefixed 32-byte private-key hex string, as produced by
viem `generatePrivateKey()`: 0x plus 64 hex digits. -/
def ValidPrivHex (s : List Char) : Prop :=
  startsWith0x s = true ∧ s.length = 66 ∧ ∀ c ∈ s.drop 2, (hexDigitVal c).isSome = true

/-- The byte list `hexToUint8Array` produces for a well-formed key. -/
def privBytesOf (s : List Char) : List Nat :=
  parsePairs (if startsWith0x s then s.drop 2 else s)

/-- The output-format guarantee of viem `keccak256`: a 0x prefix followed by
64 lowercase hex digits, for every input.  Stated as a hypothesis wherever a
theorem relies on it; instantiated by `toyAdapter`. -/
def KeccakGood (A : CurveAdapter) : Prop :=
  ∀ s, (A.keccak256 s).length = 66 ∧ startsWith0x (A.keccak256 s) = true ∧
    ∀ c ∈ (A.keccak256 s).drop 2, isHexLower c = true

/-- Canonical lowercase hex with a 0x prefix. -/
def IsLowerHex0x (s : List Char) : Prop :=
  startsWith0x s = true ∧ ∀ c ∈ s.drop 2, isHexLower c = true

instance (bs : List Nat) : Decidable (Bytes256 bs) := by
  unfold Bytes256; infer_instance

instance (s : List Char) : Decidable (ValidPrivHex s) := by
  unfold ValidPrivHex; infer_instance

instance (s : List Char) : Decidable (IsLowerHex0x s) := by
  unfold IsLowerHex0x; infer_instance

deriving instance DecidableEq for Except

/-- The scanner's re-derivation pipeline (core.ts lines 126-147) without the
view-tag pre-filter and without the final comparison: the fully re-derived
one-time address for a record; `none` when a step throws. -/
def rederivedAddress (A : CurveAdapter) (viewingPriv viewingPub : List Char)
    (meta : StealthMetadata) : Option (List Char) :=
  match computeECDH A viewingPriv (ensure0x meta.ephemeralPublicKey) with
  | .error _ => none
  | .ok sharedSecret =>
    match hexToBytes sharedSecret with
    | none => none
    | some sharedSecretBytes =>
      match hexToBytes viewingPub with
      | none => none
      | some viewingPubBytes =>
        A.privateKeyToAccountAddress (A.keccak256 (toHex (sharedSecretBytes ++ viewingPubBytes)))

/-- The pipeline of `deriveStealthSpendingKey` (core.ts lines 174-190) up to,
but not including, the final self-check: the candidate
`(stealthPrivateKey, derivedAddress)` pair. -/
def deriveCandidate (A : CurveAdapter)
    (viewingPrivateKey ephemeralPublicKey : List Char)
    (viewingPublicKey : Option (List Char)) : Option (List Char × List Char) :=
  match computeECDH A viewingPrivateKey ephemeralPublicKey with
  | .error _ => none
  | .ok sharedSecret =>
    match (match viewingPublicKey with
           | some v => if v = [] then derivePublicKey A viewingPrivateKey else some v
           | none => derivePublicKey A viewingPrivateKey) with
    | none => none
    | some viewingPub =>
      match hexToBytes sharedSecret with
      | none => none
      | some sharedSecretBytes =>
        match hexToBytes viewingPub with
        | none => none
        | some viewingPubBytes =>
          let stealthPrivateKey := A.keccak256 (toHex (sharedSecretBytes ++ viewingPubBytes))
          match A.privateKeyToAccountAddress stealthPrivateKey with
          | none => none
          | some derivedAddress => some (stealthPrivateKey, derivedAddress)

/-- Is the result one of the two explicit length-validation failures of
`computeECDH`? -/
def isInvalidKeyLength : Except ECDHError (List Char) → Bool
  | .error (.invalidPrivateKeyLength _) => true
  | .error (.invalidPublicKeyLength _) => true
  | _ => false

/-! ### An executable instance of the trusted adapter

A miniature "curve" over the additive group of integers mod 251 with
generator 1: scalars are reduced 32-byte values, a point `p` is encoded like
a compressed (33-byte, leading tag 2) or uncompressed (65-byte, leading tag
4) secp256k1 point with the value in the final byte, and the shared point of
a scalar and a point is their product mod 251 — commutative, as true ECDH
is.  The hash and the account formatter are constant-output stand-ins that
satisfy the format guarantees the theorems assume.  This instance exists so
every hypothesis of every theorem is discharged on concrete inputs by
evaluation; it is not part of the repository. -/

/-- Toy 33-byte compressed point encoding. -/
def encodePoint (p : Nat) : List Nat := 2 :: (List.replicate 31 0 ++ [p])

/-- Toy 65-byte uncompressed encoding of the same point. -/
def encodePointU (p : Nat) : List Nat := 4 :: (List.replicate 63 0 ++ [p])

/-- Toy point decoding: the final byte (same for both encodings). -/
def decodePoint (bs : List Nat) : Nat := bs.getLast?.getD 0

/-- Toy scalar: the 32-byte value reduced mod 251. -/
def scalarOf (bs : List Nat) : Nat := bs.foldl (fun a b => (a * 256 + b) % 251) 0

/-- Constant toy keccak-256 output: 0x followed by 64 hex digits. -/
def toyKeccakOut : List Char := '0' :: 'x' :: List.replicate 64 'a'

/-- Constant toy account address: 0x followed by 40 hex digits. -/
def toyAccountAddr : List Char := '0' :: 'x' :: List.replicate 40 'b'

/-- The executable toy instance of the trusted curve/hash adapter. -/
def toyAdapter : CurveAdapter where
  getPublicKey bs := if bs.length = 32 then some (encodePoint (scalarOf bs)) else none
  getSharedSecret priv pub :=
    if priv.length = 32 ∧ (pub.length = 33 ∨ pub.length = 65) then
      some (encodePoint (scalarOf priv * decodePoint pub % 251))
    else none
  keccak256 _ := toyKeccakOut
  privateKeyToAccountAddress s := if s.length = 66 then some toyAccountAddr else none

/-- Concrete ephemeral private key for witnesses. -/
def tEph : List Char := '0' :: 'x' :: List.replicate 64 '1'

/-- Concrete viewing private key for witnesses. -/
def tVpriv : List Char := '0' :: 'x' :: List.replicate 64 '2'

/-- Concrete spending private key for witnesses. -/
def tSpriv : List Char := '0' :: 'x' :: List.replicate 64 '3'

/-- Toy public point of `tVpriv` (scalar 159). -/
def tVb : List Nat := encodePoint 159

/-- Toy public point of `tEph` (scalar 205). -/
def tEb : List Nat := encodePoint 205

/-- Toy shared point of (`tEph`, `tVb`) and of (`tVpriv`, `tEb`). -/
def tShared : List Nat := encodePoint 216

/-- Hex form of the toy viewing public key. -/
def tVpubHex : List Char := uint8ArrayToHex tVb

/-- Hex form of the toy ephemeral public key. -/
def tEphPubHex : List Char := uint8ArrayToHex tEb

/-- The stealth address the toy generation run produces. -/
def tS : StealthAddress := ⟨toyAccountAddr, tEphPubHex, ['a', 'a']⟩

/-- The metadata record published for `tS`. -/
def tMeta : StealthMetadata := createStealthMetadata tS ['e', 't', 'h'] 0

/-- The toy receiver key set. -/
def tKeys : StealthKeys := ⟨tSpriv, tVpriv, uint8ArrayToHex (encodePoint 113), tVpubHex⟩

/-- A malformed record: `ephemeralPublicKey` missing (empty). -/
def tMetaBad : StealthMetadata := ⟨['q'], [], ['a', 'a'], ['e', 't', 'h'], 1⟩

/-- A non-matching record: its stored view tag contains a non-hex character,
so no computed tag can ever equal it. -/
def tMetaNon : StealthMetadata := ⟨toyAccountAddr, tEphPubHex, ['z', 'z'], ['e', 't', 'h'], 2⟩

/-- An uppercase-stored variant of the toy stealth address. -/
def tUpperAddr : List Char := '0' :: 'x' :: List.replicate 40 'B'

/-- A record claiming the uppercase form of the matching address. -/
def tMetaUpper : StealthMetadata := ⟨tUpperAddr, tEphPubHex, ['a', 'a'], ['e', 't', 'h'], 3⟩

/-! ### Basic facts about the hex codecs -/

theorem exists_of_startsWith0x {s : List Char} (h : startsWith0x s = true) :
    ∃ t, s = '0' :: 'x' :: t := by
  unfold startsWith0x at h
  split at h
  · next t => exact ⟨t, rfl⟩
  · exact absurd h (by simp)

theorem ensure0x_of_startsWith {s : List Char} (h : startsWith0x s = true) :
    ensure0x s = s := by
  simp [ensure0x, h]

theorem startsWith0x_ensure0x (s : List Char) : startsWith0x (ensure0x s) = true := by
  unfold ensure0x
  split
  · assumption
  · rfl

theorem bytesToHexChars_length (bs : List Nat) :
    (bytesToHexChars bs).length = 2 * bs.length := by
  induction bs with
  | nil => rfl
  | cons b rest ih => simp [bytesToHexChars, ih]; omega

theorem uint8ArrayToHex_length (bs : List Nat) :
    (uint8ArrayToHex bs).length = 2 + 2 * bs.length := by
  simp [uint8ArrayToHex, bytesToHexChars_length]; omega

theorem hexDigitVal_hexDigit {n : Nat} (h : n < 16) :
    hexDigitVal (hexDigit n) = some n := by
  interval_cases n <;> decide

theorem isHexLower_hexDigit {n : Nat} (h : n < 16) :
    isHexLower (hexDigit n) = true := by
  interval_cases n <;> decide

theorem jsParseHex2_byte {b : Nat} (h : b < 256) :
    jsParseHex2 (hexDigit (b / 16 % 16)) (hexDigit (b % 16)) = b := by
  have hd : b / 16 < 16 := Nat.div_lt_of_lt_mul (by omega)
  have hm : b % 16 < 16 := Nat.mod_lt _ (by omega)
  have h1 : b / 16 % 16 = b / 16 := Nat.mod_eq_of_lt hd
  rw [h1]
  simp [jsParseHex2, hexDigitVal_hexDigit hd, hexDigitVal_hexDigit hm]
  omega

theorem parsePairs_bytesToHexChars {bs : List Nat} (h : Bytes256 bs) :
    parsePairs (bytesToHexChars bs) = bs := by
  induction bs with
  | nil => rfl
  | cons b rest ih =>
    have hb : b < 256 := h b (by simp)
    have hrest : Bytes256 rest := fun x hx => h x (by simp [hx])
    simp [bytesToHexChars, parsePairs, jsParseHex2_byte hb, ih hrest]

theorem hexToUint8Array_uint8ArrayToHex {bs : List Nat} (h : Bytes256 bs) :
    hexToUint8Array (uint8ArrayToHex bs) = some bs := by
  have hlen := bytesToHexChars_length bs
  simp [hexToUint8Array, uint8ArrayToHex, startsWith0x, parsePairs_bytesToHexChars h]
  omega

theorem strictParsePairs_bytesToHexChars {bs : List Nat} (h : Bytes256 bs) :
    strictParsePairs (bytesToHexChars bs) = some bs := by
  induction bs with
  | nil => rfl
  | cons b rest ih =>
    have hb : b < 256 := h b (by simp)
    have hrest : Bytes256 rest := fun x hx => h x (by simp [hx])
    have hd : b / 16 < 16 := Nat.div_lt_of_lt_mul (by omega)
    have hm : b % 16 < 16 := Nat.mod_lt _ (by omega)
    have h1 : b / 16 % 16 = b / 16 := Nat.mod_eq_of_lt hd
    simp [bytesToHexChars, strictParsePairs, h1, hexDigitVal_hexDigit hd,
      hexDigitVal_hexDigit hm, ih hrest]
    omega

theorem hexToBytes_uint8ArrayToHex {bs : List Nat} (h : Bytes256 bs) :
    hexToBytes (uint8ArrayToHex bs) = some bs := by
  have hlen := bytesToHexChars_length bs
  simp [hexToBytes, uint8ArrayToHex, strictParsePairs_bytesToHexChars h, hlen]

theorem hexDigitVal_isSome_of_isHexLower {c : Char} (h : isHexLower c = true) :
    (hexDigitVal c).isSome = true := by
  unfold isHexLower at h
  simp only [Bool.or_eq_true, Bool.and_eq_true, decide_eq_true_eq] at h
  unfold hexDigitVal
  rcases h with ⟨h1, h2⟩ | ⟨h1, h2⟩
  · rw [if_pos ⟨h1, h2⟩]; rfl
  · rw [if_neg (by omega), if_pos ⟨h1, h2⟩]; rfl

theorem lcChar_of_isHexLower {c : Char} (h : isHexLower c = true) : lcChar c = c := by
  unfold isHexLower at h
  simp only [Bool.or_eq_true, Bool.and_eq_true, decide_eq_true_eq] at h
  unfold lcChar
  rw [if_neg (by omega)]

theorem ne_x_of_isHexLower {c : Char} (h : isHexLower c = true) : c ≠ 'x' := by
  intro he
  rw [he] at h
  exact absurd h (by decide)

theorem lcStr_fix {s : List Char} (h : ∀ c ∈ s, isHexLower c = true) : lcStr s = s := by
  unfold lcStr
  induction s with
  | nil => rfl
  | cons a t ih =>
    simp only [List.map_cons, List.cons.injEq]
    exact ⟨lcChar_of_isHexLower (h a (by simp)), ih (fun c hc => h c (by simp [hc]))⟩

theorem take_two_of_length : ∀ {l : List Char}, 2 ≤ l.length → ∃ a b, l.take 2 = [a, b]
  | _ :: _ :: _, _ => ⟨_, _, rfl⟩
  | [], h => absurd h (by simp)
  | [_], h => absurd h (by simp)

theorem strip0x_two {c1 c2 : Char} (h : c2 ≠ 'x') : strip0x [c1, c2] = [c1, c2] := by
  unfold strip0x
  split
  · next heq =>
    injection heq with ha hb
    injection hb with hb _
    exact absurd hb h
  · rfl

theorem startsWith0x_two_false {c1 c2 : Char} (h : c2 ≠ 'x') :
    startsWith0x [c1, c2] = false := by
  unfold startsWith0x
  split
  · next heq =>
    injection heq with ha hb
    injection hb with hb _
    exact absurd hb h
  · rfl

theorem strictParsePairs_isSome_of_allHex :
    ∀ l : List Char, (∀ c ∈ l, isHexLower c = true) → l.length % 2 = 0 →
      ∃ bs, strictParsePairs l = some bs
  | [], _, _ => ⟨[], rfl⟩
  | [a], _, hl => by simp at hl
  | a :: b :: rest, h, hl => by
    obtain ⟨x, hx⟩ := Option.isSome_iff_exists.mp
      (hexDigitVal_isSome_of_isHexLower (h a (by simp)))
    obtain ⟨y, hy⟩ := Option.isSome_iff_exists.mp
      (hexDigitVal_isSome_of_isHexLower (h b (by simp)))
    obtain ⟨bs, hbs⟩ := strictParsePairs_isSome_of_allHex rest
      (fun c hc => h c (by simp [hc])) (by simp at hl ⊢; omega)
    exact ⟨(16 * x + y) :: bs, by simp [strictParsePairs, hx, hy, hbs]⟩

theorem keccak_shape {A : CurveAdapter} (hK : KeccakGood A) (s : List Char) :
    ∃ t, A.keccak256 s = '0' :: 'x' :: t ∧ t.length = 64 ∧
      ∀ c ∈ t, isHexLower c = true := by
  obtain ⟨hl, hs, hh⟩ := hK s
  obtain ⟨t, ht⟩ := exists_of_startsWith0x hs
  refine ⟨t, ht, ?_, ?_⟩
  · rw [ht] at hl; simpa using hl
  · intro c hc
    apply hh
    rw [ht]
    simpa using hc

theorem hexToBytes_keccak {A : CurveAdapter} (hK : KeccakGood A) (s : List Char) :
    ∃ bs, hexToBytes (A.keccak256 s) = some bs := by
  obtain ⟨t, ht, htl, hth⟩ := keccak_shape hK s
  obtain ⟨bs, hbs⟩ := strictParsePairs_isSome_of_allHex t hth (by omega)
  refine ⟨bs, ?_⟩
  rw [ht]
  simpa [hexToBytes, htl] using hbs

theorem hexToUint8Array_of_valid {s : List Char} (h : ValidPrivHex s) :
    hexToUint8Array s = some (privBytesOf s) := by
  obtain ⟨h0, hl, -⟩ := h
  obtain ⟨t, rfl⟩ := exists_of_startsWith0x h0
  have ht : t.length = 64 := by simpa using hl
  simp [hexToUint8Array, privBytesOf, startsWith0x, ht]

theorem ne_nil_of_valid {s : List Char} (h : ValidPrivHex s) : s ≠ [] := by
  obtain ⟨h0, -, -⟩ := h
  obtain ⟨t, rfl⟩ := exists_of_startsWith0x h0
  simp

/-! ### Evaluation lemmas for the derivation pipeline -/

theorem privBytesOf_uint8ArrayToHex {bs : List Nat} (h : Bytes256 bs) :
    privBytesOf (uint8ArrayToHex bs) = bs := by
  simp [privBytesOf, uint8ArrayToHex, startsWith0x, parsePairs_bytesToHexChars h]

theorem hexToUint8Array_eval {s : List Char} (h0 : startsWith0x s = true)
    (he : s.length % 2 = 0) :
    hexToUint8Array s = some (privBytesOf s) := by
  obtain ⟨t, rfl⟩ := exists_of_startsWith0x h0
  have ht : t.length % 2 = 0 := by simp at he; omega
  simp [hexToUint8Array, privBytesOf, startsWith0x, ht]

theorem computeECDH_eval_raw (A : CurveAdapter) {priv pub : List Char}
    (hpriv : ValidPrivHex priv) (hpub0 : startsWith0x pub = true)
    (hlen : pub.length = 68 ∨ pub.length = 132) :
    computeECDH A priv pub =
      match A.getSharedSecret (privBytesOf priv) (privBytesOf pub) with
      | some sharedPoint => Except.ok (A.keccak256 (uint8ArrayToHex sharedPoint))
      | none => Except.error ECDHError.curveError := by
  have hpne : priv ≠ [] := ne_nil_of_valid hpriv
  have hqne : pub ≠ [] := by
    rintro rfl
    simp [startsWith0x] at hpub0
  have hepv : ensure0x priv = priv := ensure0x_of_startsWith hpriv.1
  have heqv : ensure0x pub = pub := ensure0x_of_startsWith hpub0
  have hppar : hexToUint8Array priv = some (privBytesOf priv) :=
    hexToUint8Array_of_valid hpriv
  have hqpar : hexToUint8Array pub = some (privBytesOf pub) :=
    hexToUint8Array_eval hpub0 (by omega)
  have hplen : priv.length = 66 := hpriv.2.1
  unfold computeECDH
  rw [if_neg (by simp [hpne, hqne])]
  simp only [hepv, heqv, hplen, hppar, hqpar]
  rw [if_neg (by omega), if_neg (by omega)]

theorem computeECDH_eval (A : CurveAdapter) {priv : List Char} {pb : List Nat}
    (hpriv : ValidPrivHex priv) (hlen : pb.length = 33) (hb : Bytes256 pb) :
    computeECDH A priv (uint8ArrayToHex pb) =
      match A.getSharedSecret (privBytesOf priv) pb with
      | some sharedPoint => Except.ok (A.keccak256 (uint8ArrayToHex sharedPoint))
      | none => Except.error ECDHError.curveError := by
  rw [computeECDH_eval_raw A hpriv (by rfl) (by rw [uint8ArrayToHex_length]; omega),
    privBytesOf_uint8ArrayToHex hb]

theorem generateStealthAddress_eval (A : CurveAdapter)
    {eph : List Char} (he : ValidPrivHex eph)
    {vb eb spt : List Nat} (hvbl : vb.length = 33) (hvb : Bytes256 vb)
    (hep : A.getPublicKey (privBytesOf eph) = some eb)
    (hsh : A.getSharedSecret (privBytesOf eph) vb = some spt)
    {ssb : List Nat} (hssb : hexToBytes (A.keccak256 (uint8ArrayToHex spt)) = some ssb)
    {addr : List Char}
    (hacc : A.privateKeyToAccountAddress (A.keccak256 (toHex (ssb ++ vb))) = some addr)
    (sp? : Option (List Char)) (frk : List Char) :
    generateStealthAddress A (uint8ArrayToHex vb) sp? (some eph) frk =
      Except.ok ⟨addr, uint8ArrayToHex eb,
        lcStr (((A.keccak256 (uint8ArrayToHex spt)).drop 2).take 2)⟩ := by
  have hlen68 : (uint8ArrayToHex vb).length = 68 := by rw [uint8ArrayToHex_length]; omega
  have hens : ensure0x (uint8ArrayToHex vb) = uint8ArrayToHex vb :=
    ensure0x_of_startsWith rfl
  have hene : eph ≠ [] := ne_nil_of_valid he
  have hdp : derivePublicKey A eph = some (uint8ArrayToHex eb) := by
    simp [derivePublicKey, hexToUint8Array_of_valid he, hep]
  have hecdh := computeECDH_eval A he hvbl hvb
  have hvbb : hexToBytes (uint8ArrayToHex vb) = some vb := hexToBytes_uint8ArrayToHex hvb
  unfold generateStealthAddress
  simp only [hens, hlen68]
  rw [if_neg (by omega)]
  simp [hene, hdp, hecdh, hsh, hssb, hvbb, hacc]

theorem processRecord_roundtrip (A : CurveAdapter) (hK : KeccakGood A)
    {vpriv : List Char} (hv : ValidPrivHex vpriv)
    {vb eb spt : List Nat} (hvbl : vb.length = 33) (hvb : Bytes256 vb)
    (hebl : eb.length = 33) (heb : Bytes256 eb)
    (hsym : A.getSharedSecret (privBytesOf vpriv) eb = some spt)
    {ssb : List Nat} (hssb : hexToBytes (A.keccak256 (uint8ArrayToHex spt)) = some ssb)
    {addr : List Char}
    (hacc : A.privateKeyToAccountAddress (A.keccak256 (toHex (ssb ++ vb))) = some addr)
    (hane : addr ≠ []) (net : List Char) (now : Nat) :
    processRecord A vpriv (uint8ArrayToHex vb)
      (createStealthMetadata
        ⟨addr, uint8ArrayToHex eb,
          lcStr (((A.keccak256 (uint8ArrayToHex spt)).drop 2).take 2)⟩ net now) =
      some ⟨addr, uint8ArrayToHex eb,
        lcStr (((A.keccak256 (uint8ArrayToHex spt)).drop 2).take 2)⟩ := by
  obtain ⟨t, hts, htl, hth⟩ := keccak_shape hK (uint8ArrayToHex spt)
  obtain ⟨c1, c2, htake⟩ := take_two_of_length (l := t) (by omega)
  have hc1 : c1 ∈ t := List.take_subset 2 t (by rw [htake]; simp)
  have hc2 : c2 ∈ t := List.take_subset 2 t (by rw [htake]; simp)
  have hx1 := hth c1 hc1
  have hx2 := hth c2 hc2
  have hdrop : (A.keccak256 (uint8ArrayToHex spt)).drop 2 = t := by rw [hts]; rfl
  have htag : lcStr (((A.keccak256 (uint8ArrayToHex spt)).drop 2).take 2) = [c1, c2] := by
    rw [hdrop, htake]
    exact lcStr_fix (by
      intro c hc
      simp at hc
      rcases hc with rfl | rfl <;> assumption)
  have hens : ensure0x (uint8ArrayToHex eb) = uint8ArrayToHex eb :=
    ensure0x_of_startsWith rfl
  have hecdh := computeECDH_eval A hv hebl heb
  have hvbb : hexToBytes (uint8ArrayToHex vb) = some vb := hexToBytes_uint8ArrayToHex hvb
  have hstored : strip0x (lcStr [c1, c2]) = [c1, c2] := by
    rw [lcStr_fix (by
      intro c hc
      simp at hc
      rcases hc with rfl | rfl <;> assumption)]
    exact strip0x_two (ne_x_of_isHexLower hx2)
  have hebne : uint8ArrayToHex eb ≠ [] := by simp [uint8ArrayToHex]
  simp [processRecord, createStealthMetadata, htag, hane, hens, hecdh, hsym, hssb,
    hvbb, hacc, hstored, hebne]

theorem processRecord_skip_empty (A : CurveAdapter) (vp vpub : List Char)
    {meta : StealthMetadata} (h : meta.ephemeralPublicKey = []) :
    processRecord A vp vpub meta = none := by
  simp [processRecord, h]

theorem computeECDH_ok_keccak {A : CurveAdapter} {p q v : List Char}
    (h : computeECDH A p q = Except.ok v) : ∃ x, v = A.keccak256 x := by
  unfold computeECDH at h
  simp only [] at h
  repeat' split at h
  all_goals
    first
    | exact Except.noConfusion h
    | (injection h with h; exact ⟨_, h.symm⟩)

theorem processRecord_skip_badTag {A : CurveAdapter} (hK : KeccakGood A)
    (vp vpub : List Char) {meta : StealthMetadata}
    (hbad : ∃ c ∈ strip0x (lcStr meta.viewTag), isHexLower c = false) :
    processRecord A vp vpub meta = none := by
  obtain ⟨c0, hc0m, hc0⟩ := hbad
  unfold processRecord
  split
  · rfl
  · simp only []
    split
    · rfl
    · next sharedSecret heq =>
      have hcomputed : ∀ c ∈ lcStr ((sharedSecret.drop 2).take 2), isHexLower c = true := by
        obtain ⟨x, rfl⟩ := computeECDH_ok_keccak heq
        obtain ⟨t, hts, htl, hth⟩ := keccak_shape hK x
        rw [hts]
        intro c hc
        simp only [lcStr, List.mem_map] at hc
        obtain ⟨d, hd, rfl⟩ := hc
        have hdt : d ∈ t := List.take_subset 2 t (by simpa using hd)
        rw [lcChar_of_isHexLower (hth d hdt)]
        exact hth d hdt
      have hne : lcStr ((sharedSecret.drop 2).take 2) ≠ strip0x (lcStr meta.viewTag) := by
        intro he
        rw [← he] at hc0m
        rw [hcomputed c0 hc0m] at hc0
        exact absurd hc0 (by simp)
      rw [if_pos hne]

theorem scanStealthAddresses_ok (A : CurveAdapter) {vk vp : List Char}
    (hk : vk ≠ []) (hp : vp ≠ []) (metas : List StealthMetadata) :
    scanStealthAddresses A vk vp metas =
      .ok (metas.filterMap (processRecord A (ensure0x vk) (ensure0x vp))) := by
  simp [scanStealthAddresses, hk, hp]

theorem processRecord_some_spec {A : CurveAdapter} {vp vpub : List Char}
    {meta : StealthMetadata} {r : StealthAddress}
    (h : processRecord A vp vpub meta = some r) :
    r.address = meta.stealthAddress ∧ r.viewTag = meta.viewTag ∧
      r.ephemeralPublicKey = ensure0x meta.ephemeralPublicKey ∧
      ∃ da, rederivedAddress A vp vpub meta = some da ∧
        lcStr da = lcStr meta.stealthAddress := by
  unfold processRecord at h
  simp only [] at h
  split at h
  · exact Option.noConfusion h
  · split at h
    · exact Option.noConfusion h
    · next sharedSecret hecdh =>
      split at h
      · exact Option.noConfusion h
      · split at h
        · exact Option.noConfusion h
        · next sharedSecretBytes hssb =>
          split at h
          · exact Option.noConfusion h
          · next viewingPubBytes hvpb =>
            split at h
            · exact Option.noConfusion h
            · next address hacc =>
              split at h
              · next hlceq =>
                injection h with h
                refine ⟨by rw [← h], by rw [← h], by rw [← h], address, ?_, hlceq⟩
                unfold rederivedAddress
                simp only [hecdh, hssb, hvpb]
                exact hacc
              · exact Option.noConfusion h

theorem derivePublicKey_some_shape {A : CurveAdapter} {k p : List Char}
    (h : derivePublicKey A k = some p) : ∃ bs, p = uint8ArrayToHex bs := by
  unfold derivePublicKey at h
  repeat' split at h
  all_goals
    first
    | exact Option.noConfusion h
    | (injection h with h; exact ⟨_, h.symm⟩)

theorem deriveCandidate_spec {A : CurveAdapter}
    {vk ep : List Char} {vp? : Option (List Char)} {spk da : List Char}
    (hc : deriveCandidate A vk ep vp? = some (spk, da)) (sk sa : List Char) :
    deriveStealthSpendingKey A sk vk sa ep vp? =
      (if lcStr da = lcStr sa then Except.ok spk
       else Except.error DeriveError.derivedAddressMismatch) ∧
    A.privateKeyToAccountAddress spk = some da := by
  unfold deriveCandidate at hc
  simp only [] at hc
  split at hc
  · exact Option.noConfusion hc
  · next sharedSecret hecdh =>
    split at hc
    · exact Option.noConfusion hc
    · next viewingPub hvp =>
      split at hc
      · exact Option.noConfusion hc
      · next sharedSecretBytes hssb =>
        split at hc
        · exact Option.noConfusion hc
        · next viewingPubBytes hvpb =>
          split at hc
          · exact Option.noConfusion hc
          · next derivedAddress hacc =>
            injection hc with hc
            injection hc with h1 h2
            rw [← h1, ← h2]
            refine ⟨?_, hacc⟩
            unfold deriveStealthSpendingKey
            simp only [hecdh, hvp, hssb, hvpb, hacc]
            by_cases hlc : lcStr derivedAddress = lcStr sa
            · rw [if_neg (not_not_intro hlc), if_pos hlc]
            · rw [if_pos hlc, if_neg hlc]

theorem deriveStealthSpendingKey_ok_shape {A : CurveAdapter}
    {sk vk sa ep : List Char} {vp? : Option (List Char)} {k : List Char}
    (h : deriveStealthSpendingKey A sk vk sa ep vp? = Except.ok k) :
    ∃ x, k = A.keccak256 x := by
  unfold deriveStealthSpendingKey at h
  simp only [] at h
  repeat' split at h
  all_goals
    first
    | exact Except.noConfusion h
    | (injection h with h; exact ⟨_, h.symm⟩)

theorem generateStealthAddress_ok_shape {A : CurveAdapter}
    {v : List Char} {sp e : Option (List Char)} {frk : List Char} {S : StealthAddress}
    (h : generateStealthAddress A v sp e frk = Except.ok S) :
    (∃ eb, S.ephemeralPublicKey = uint8ArrayToHex eb) ∧
      ∃ x, S.viewTag = lcStr (((A.keccak256 x).drop 2).take 2) := by
  unfold generateStealthAddress at h
  simp only [] at h
  split at h
  · exact Except.noConfusion h
  · split at h
    · exact Except.noConfusion h
    · next ephemeralPublicKey hdp =>
      split at h
      · exact Except.noConfusion h
      · next sharedSecret hecdh =>
        split at h
        · exact Except.noConfusion h
        · next sharedSecretBytes hssb =>
          split at h
          · exact Except.noConfusion h
          · next viewingPubBytes hvpb =>
            split at h
            · exact Except.noConfusion h
            · next addr hacc =>
              injection h with h
              obtain ⟨x, hx⟩ := computeECDH_ok_keccak hecdh
              obtain ⟨bs, hbs⟩ := derivePublicKey_some_shape hdp
              refine ⟨⟨bs, by rw [← h, hbs]⟩, x, by rw [← h, hx]⟩

theorem generateStealthKeys_shape {A : CurveAdapter} {rs rv : List Char}
    {K : StealthKeys} (h : generateStealthKeys A rs rv = some K) :
    K.spendingPrivateKey = rs ∧ K.viewingPrivateKey = rv ∧
      derivePublicKey A rs = some K.spendingPublicKey ∧
      derivePublicKey A rv = some K.viewingPublicKey := by
  unfold generateStealthKeys at h
  split at h
  · exact Option.noConfusion h
  · next sp hsp =>
    split at h
    · exact Option.noConfusion h
    · next vpk hvp =>
      injection h with h
      rw [← h]
      exact ⟨rfl, rfl, hsp, hvp⟩

theorem isHexLower_bytesToHexChars (bs : List Nat) :
    ∀ c ∈ bytesToHexChars bs, isHexLower c = true := by
  induction bs with
  | nil => simp [bytesToHexChars]
  | cons b rest ih =>
    intro c hc
    simp only [bytesToHexChars, List.mem_cons] at hc
    rcases hc with rfl | rfl | hc
    · exact isHexLower_hexDigit (Nat.mod_lt _ (by omega))
    · exact isHexLower_hexDigit (Nat.mod_lt _ (by omega))
    · exact ih c hc

theorem IsLowerHex0x_uint8ArrayToHex (bs : List Nat) :
    IsLowerHex0x (uint8ArrayToHex bs) := by
  refine ⟨rfl, ?_⟩
  intro c hc
  exact isHexLower_bytesToHexChars bs c (by simpa [uint8ArrayToHex] using hc)

theorem viewTag_facts {A : CurveAdapter} (hK : KeccakGood A) (x : List Char) :
    startsWith0x (lcStr (((A.keccak256 x).drop 2).take 2)) = false ∧
    (lcStr (((A.keccak256 x).drop 2).take 2)).length = 2 ∧
    ∀ c ∈ lcStr (((A.keccak256 x).drop 2).take 2), isHexLower c = true := by
  obtain ⟨t, hts, htl, hth⟩ := keccak_shape hK x
  obtain ⟨c1, c2, htake⟩ := take_two_of_length (l := t) (by omega)
  have hdrop : (A.keccak256 x).drop 2 = t := by rw [hts]; rfl
  have hmem : ∀ c ∈ ([c1, c2] : List Char), isHexLower c = true := by
    intro c hc
    simp at hc
    rcases hc with rfl | rfl
    · exact hth c (List.take_subset 2 t (by rw [htake]; simp))
    · exact hth c (List.take_subset 2 t (by rw [htake]; simp))
  have htag : lcStr (((A.keccak256 x).drop 2).take 2) = [c1, c2] := by
    rw [hdrop, htake]
    exact lcStr_fix hmem
  rw [htag]
  exact ⟨startsWith0x_two_false (ne_x_of_isHexLower (hmem c2 (by simp))), rfl, hmem⟩

/-! ### Claim theorems -/

/-- C2: ECDH symmetry.  For valid private scalars `a`, `b` whose compressed
public points (as produced by the curve library) are `pa`, `pb`, the two
shared secrets `computeECDH a (hex pb)` and `computeECDH b (hex pa)` are
bit-identical.  The commutativity of the underlying scalar-point
multiplication (`hsym`) is the trusted curve-library fact the spec assumes;
everything else — normalization, validation, byte decoding and hashing on the
two sides — is proved from the code. -/
theorem ecdh_symmetry (A : CurveAdapter) (a b : List Char)
    (ha : ValidPrivHex a) (hb : ValidPrivHex b) (pa pb : List Nat)
    (hpa : A.getPublicKey (privBytesOf a) = some pa)
    (hpal : pa.length = 33) (hpab : Bytes256 pa)
    (hpb : A.getPublicKey (privBytesOf b) = some pb)
    (hpbl : pb.length = 33) (hpbb : Bytes256 pb)
    (hsym : A.getSharedSecret (privBytesOf a) pb = A.getSharedSecret (privBytesOf b) pa) :
    computeECDH A a (uint8ArrayToHex pb) = computeECDH A b (uint8ArrayToHex pa) := by
  rw [computeECDH_eval A ha hpbl hpbb, computeECDH_eval A hb hpal hpab, hsym]

/-- Witness for C2: the toy adapter and two concrete keys discharge every
hypothesis by evaluation. -/
theorem ecdh_symmetry_witness :
    computeECDH toyAdapter tEph (uint8ArrayToHex tVb) =
      computeECDH toyAdapter tVpriv (uint8ArrayToHex tEb) := by
  exact ecdh_symmetry toyAdapter tEph tVpriv (by decide) (by decide) tEb tVb
    (by decide) (by decide) (by decide) (by decide) (by decide) (by decide) (by decide)

/-- C8: point-encoding normalization.  For a valid 32-byte scalar and the
33-byte (compressed) and 65-byte (uncompressed) hex encodings of one curve
point, `computeECDH` returns the same secret.  That the library derives the
same shared point from either encoding (`hnorm`) is the trusted normalization
fact; the code-level content — both lengths pass validation and feed the same
downstream hashing — is proved from the code. -/
theorem point_encoding_normalization (A : CurveAdapter) (s pc pu : List Char)
    (hs : ValidPrivHex s)
    (hc0 : startsWith0x pc = true) (hcl : pc.length = 68)
    (hu0 : startsWith0x pu = true) (hul : pu.length = 132)
    (hnorm : A.getSharedSecret (privBytesOf s) (privBytesOf pc) =
             A.getSharedSecret (privBytesOf s) (privBytesOf pu)) :
    computeECDH A s pc = computeECDH A s pu := by
  rw [computeECDH_eval_raw A hs hc0 (Or.inl hcl),
    computeECDH_eval_raw A hs hu0 (Or.inr hul), hnorm]

/-- Witness for C8: the compressed and uncompressed toy encodings of the
point 7, consumed by a concrete scalar. -/
theorem point_encoding_normalization_witness :
    computeECDH toyAdapter tEph (uint8ArrayToHex (encodePoint 7)) =
      computeECDH toyAdapter tEph (uint8ArrayToHex (encodePointU 7)) := by
  exact point_encoding_normalization toyAdapter tEph
    (uint8ArrayToHex (encodePoint 7)) (uint8ArrayToHex (encodePointU 7))
    (by decide) (by decide) (by decide) (by decide) (by decide) (by decide)

/-- C5 counterexample: an empty private scalar is "not exactly 32 bytes", yet
`computeECDH` fails with the missing-key error of line 17 of core.ts, not
with an invalid-length error — the `!privateKey` check fires first. -/
theorem shared_secret_empty_scalar_counterexample :
    computeECDH toyAdapter [] (uint8ArrayToHex tVb) = Except.error ECDHError.missingKey ∧
    isInvalidKeyLength (computeECDH toyAdapter [] (uint8ArrayToHex tVb)) = false := by
  exact ⟨rfl, rfl⟩

/-- C5 (amended): for nonempty inputs, `computeECDH` fails with the
invalid-private-key-length error whenever the normalized scalar is not 66
hex characters (0x + 32 bytes), fails with the invalid-public-key-length
error whenever the scalar length is right but the normalized point is
neither 66 nor 130 hex digits (33 nor 65 bytes), and produces the
curve-library failure only after both length validations have passed and the
library itself rejected the call.  (Empty inputs fail with the separate
missing-key error — see the counterexample.) -/
theorem shared_secret_error_taxonomy (A : CurveAdapter)
    (privateKey publicKey : List Char)
    (hp : privateKey ≠ []) (hq : publicKey ≠ []) :
    ((ensure0x privateKey).length ≠ 66 →
      computeECDH A privateKey publicKey =
        Except.error (ECDHError.invalidPrivateKeyLength (ensure0x privateKey).length)) ∧
    ((ensure0x privateKey).length = 66 →
      (ensure0x publicKey).length - 2 ≠ 66 → (ensure0x publicKey).length - 2 ≠ 130 →
      computeECDH A privateKey publicKey =
        Except.error (ECDHError.invalidPublicKeyLength (ensure0x publicKey).length)) ∧
    (computeECDH A privateKey publicKey = Except.error ECDHError.curveError →
      (ensure0x privateKey).length = 66 ∧
      ((ensure0x publicKey).length - 2 = 66 ∨ (ensure0x publicKey).length - 2 = 130) ∧
      ∃ pb qb, hexToUint8Array (ensure0x privateKey) = some pb ∧
        hexToUint8Array (ensure0x publicKey) = some qb ∧
        A.getSharedSecret pb qb = none) := by
  have hne : ¬(privateKey = [] ∨ publicKey = []) := by simp [hp, hq]
  refine ⟨?_, ?_, ?_⟩
  · intro h
    unfold computeECDH
    simp only []
    rw [if_neg hne, if_pos h]
  · intro h1 h2 h3
    unfold computeECDH
    simp only []
    rw [if_neg hne, if_neg (not_not_intro h1), if_pos ⟨h2, h3⟩]
  · intro h
    unfold computeECDH at h
    simp only [] at h
    rw [if_neg hne] at h
    split at h
    · injection h with h
      exact ECDHError.noConfusion h
    · next h1 =>
      split at h
      · injection h with h
        exact ECDHError.noConfusion h
      · next h2 =>
        split at h
        · next pb qb hpb hqb =>
          split at h
          · exact Except.noConfusion h
          · next hnone =>
            exact ⟨by omega, by omega, pb, qb, hpb, hqb, hnone⟩
        · injection h with h
          exact ECDHError.noConfusion h

/-- Witness for C5: a 1-character scalar (nonempty, wrong length) produces
exactly the invalid-private-key-length error. -/
theorem shared_secret_error_taxonomy_witness :
    computeECDH toyAdapter ['1'] ['2'] =
      Except.error (ECDHError.invalidPrivateKeyLength 3) := by
  exact (shared_secret_error_taxonomy toyAdapter ['1'] ['2']
    (by decide) (by decide)).1 (by decide)

/-- C7: spending-key noninterference.  The stealth address produced by
`generateStealthAddress` does not depend on `spendingPublicKey`, and the
scalar produced by `deriveStealthSpendingKey` does not depend on
`spendingPrivateKey` — with all other arguments fixed, swapping either one
for any other value leaves the result unchanged. -/
theorem spending_key_noninterference (A : CurveAdapter)
    (viewingPublicKey : List Char) (sp1 sp2 : Option (List Char))
    (eph : Option (List Char)) (freshKey : List Char)
    (sk1 sk2 viewingPrivateKey stealthAddress ephemeralPublicKey : List Char)
    (viewingPublicKey? : Option (List Char)) :
    generateStealthAddress A viewingPublicKey sp1 eph freshKey =
      generateStealthAddress A viewingPublicKey sp2 eph freshKey ∧
    deriveStealthSpendingKey A sk1 viewingPrivateKey stealthAddress
        ephemeralPublicKey viewingPublicKey? =
      deriveStealthSpendingKey A sk2 viewingPrivateKey stealthAddress
        ephemeralPublicKey viewingPublicKey? :=
  ⟨rfl, rfl⟩

/-- The toy keccak stand-in satisfies the format guarantee assumed of viem
keccak-256. -/
theorem toyKeccakGood : KeccakGood toyAdapter := by
  intro s
  show toyKeccakOut.length = 66 ∧ startsWith0x toyKeccakOut = true ∧
    ∀ c ∈ toyKeccakOut.drop 2, isHexLower c = true
  decide

/-- C1: generation/scan round-trip.  For receiver keys `K` produced by
`generateStealthKeys`, a stealth address `S` produced by
`generateStealthAddress K.viewingPublicKey`, and the record built by
`createStealthMetadata S`, scanning that single record with K's viewing keys
returns exactly one result carrying S's address, ephemeral public key and
view tag.  The curve-library hypotheses are the spec's trusted-adapter
facts: the public keys are 33-byte points, the two ECDH computations agree
on the shared point (`hshared`/`hsym`), keccak produces well-formed hex, and
the account formatter yields a nonempty address. -/
theorem generation_scan_roundtrip (A : CurveAdapter) (hK : KeccakGood A)
    (rs rv eph : List Char) (hv : ValidPrivHex rv) (he : ValidPrivHex eph)
    (K : StealthKeys) (hkeys : generateStealthKeys A rs rv = some K)
    (vb eb spt : List Nat)
    (hvp : A.getPublicKey (privBytesOf rv) = some vb)
    (hvbl : vb.length = 33) (hvb : Bytes256 vb)
    (hep : A.getPublicKey (privBytesOf eph) = some eb)
    (hebl : eb.length = 33) (heb : Bytes256 eb)
    (hshared : A.getSharedSecret (privBytesOf eph) vb = some spt)
    (hsym : A.getSharedSecret (privBytesOf rv) eb = some spt)
    (hacct : ∀ s, s.length = 66 → ∃ a, A.privateKeyToAccountAddress s = some a ∧ a ≠ [])
    (sp? : Option (List Char)) (frk : List Char) (S : StealthAddress)
    (hgen : generateStealthAddress A K.viewingPublicKey sp? (some eph) frk = Except.ok S)
    (net : List Char) (now : Nat) :
    scanStealthAddresses A K.viewingPrivateKey K.viewingPublicKey
      [createStealthMetadata S net now] =
      Except.ok [⟨S.address, S.ephemeralPublicKey, S.viewTag⟩] := by
  obtain ⟨hKs, hKv, hKsp, hKvp⟩ := generateStealthKeys_shape hkeys
  have hdpv : derivePublicKey A rv = some (uint8ArrayToHex vb) := by
    simp [derivePublicKey, hexToUint8Array_of_valid hv, hvp]
  have hKvpub : K.viewingPublicKey = uint8ArrayToHex vb := by
    rw [hdpv] at hKvp
    injection hKvp with h
    exact h.symm
  obtain ⟨ssb, hssb⟩ := hexToBytes_keccak hK (uint8ArrayToHex spt)
  obtain ⟨addr, hacc, hane⟩ := hacct (A.keccak256 (toHex (ssb ++ vb))) (hK _).1
  have hgen2 := generateStealthAddress_eval A he hvbl hvb hep hshared hssb hacc sp? frk
  rw [hKvpub] at hgen
  rw [hgen2] at hgen
  injection hgen with hgen
  subst hgen
  have hvne : rv ≠ [] := ne_nil_of_valid hv
  rw [hKv, hKvpub,
    scanStealthAddresses_ok A hvne (by simp [uint8ArrayToHex]),
    ensure0x_of_startsWith hv.1, ensure0x_of_startsWith (s := uint8ArrayToHex vb) rfl]
  have hpr := processRecord_roundtrip A hK hv hvbl hvb hebl heb hsym hssb hacc hane net now
  simp [List.filterMap_cons, hpr]

/-- Witness for C1: the full round trip evaluated on the toy adapter with
concrete keys. -/
theorem generation_scan_roundtrip_witness :
    scanStealthAddresses toyAdapter tKeys.viewingPrivateKey tKeys.viewingPublicKey
      [createStealthMetadata tS ['e', 't', 'h'] 0] =
      Except.ok [⟨tS.address, tS.ephemeralPublicKey, tS.viewTag⟩] := by
  exact generation_scan_roundtrip toyAdapter toyKeccakGood
    tSpriv tVpriv tEph (by decide) (by decide) tKeys (by decide)
    tVb tEb tShared (by decide) (by decide) (by decide) (by decide) (by decide)
    (by decide) (by decide) (by decide)
    (fun s hs => ⟨toyAccountAddr, by simp [toyAdapter, hs], by decide⟩)
    (some tKeys.spendingPublicKey) [] tS (by decide) ['e', 't', 'h'] 0

/-- C6: scanner error isolation.  With both viewing keys present the scanner
never propagates a failure (first conjunct: every record list scans to an
`ok` result), and the specific three-record list — one record missing its
ephemeral key, one matching record, one non-matching record — yields exactly
the one matching result (second conjunct). -/
theorem scanner_error_isolation (A : CurveAdapter) (hK : KeccakGood A)
    (rv eph : List Char) (hv : ValidPrivHex rv) (he : ValidPrivHex eph)
    (vb eb spt : List Nat)
    (hvbl : vb.length = 33) (hvb : Bytes256 vb)
    (hebl : eb.length = 33) (heb : Bytes256 eb)
    (hsym : A.getSharedSecret (privBytesOf rv) eb = some spt)
    (ssb : List Nat) (hssb : hexToBytes (A.keccak256 (uint8ArrayToHex spt)) = some ssb)
    (addr : List Char)
    (hacc : A.privateKeyToAccountAddress (A.keccak256 (toHex (ssb ++ vb))) = some addr)
    (hane : addr ≠ [])
    (mbad mnon : StealthMetadata) (hbad : mbad.ephemeralPublicKey = [])
    (hnz : ∃ c ∈ strip0x (lcStr mnon.viewTag), isHexLower c = false)
    (net : List Char) (now : Nat) :
    (∀ metas, ∃ l, scanStealthAddresses A rv (uint8ArrayToHex vb) metas = Except.ok l) ∧
    scanStealthAddresses A rv (uint8ArrayToHex vb)
      [mbad,
       createStealthMetadata
         ⟨addr, uint8ArrayToHex eb,
           lcStr (((A.keccak256 (uint8ArrayToHex spt)).drop 2).take 2)⟩ net now,
       mnon] =
      Except.ok [⟨addr, uint8ArrayToHex eb,
        lcStr (((A.keccak256 (uint8ArrayToHex spt)).drop 2).take 2)⟩] := by
  have hvne : rv ≠ [] := ne_nil_of_valid hv
  have hpne : uint8ArrayToHex vb ≠ [] := by simp [uint8ArrayToHex]
  refine ⟨fun metas => ⟨_, scanStealthAddresses_ok A hvne hpne metas⟩, ?_⟩
  rw [scanStealthAddresses_ok A hvne hpne,
    ensure0x_of_startsWith hv.1, ensure0x_of_startsWith (s := uint8ArrayToHex vb) rfl]
  have h1 := processRecord_skip_empty A rv (uint8ArrayToHex vb) hbad
  have h2 := processRecord_roundtrip A hK hv hvbl hvb hebl heb hsym hssb hacc hane net now
  have h3 := processRecord_skip_badTag hK rv (uint8ArrayToHex vb) hnz
  simp [List.filterMap_cons, h1, h2, h3]

/-- Witness for C6: the toy three-record scan — malformed, matching,
non-matching — returns exactly the matching address. -/
theorem scanner_error_isolation_witness :
    scanStealthAddresses toyAdapter tVpriv (uint8ArrayToHex tVb)
      [tMetaBad, tMeta, tMetaNon] = Except.ok [tS] := by
  exact (scanner_error_isolation toyAdapter toyKeccakGood
    tVpriv tEph (by decide) (by decide) tVb tEb tShared
    (by decide) (by decide) (by decide) (by decide) (by decide)
    (List.replicate 32 170) (by decide) toyAccountAddr (by decide) (by decide)
    tMetaBad tMetaNon (by decide) (by decide) ['e', 't', 'h'] 0).2

/-- Every member of a successful scan's result list is the `processRecord`
output of some input record. -/
theorem scan_ok_mem {A : CurveAdapter} {vk vp : List Char}
    {metas : List StealthMetadata} {res : List StealthAddress}
    (h : scanStealthAddresses A vk vp metas = Except.ok res)
    {r : StealthAddress} (hr : r ∈ res) :
    ∃ m ∈ metas, processRecord A (ensure0x vk) (ensure0x vp) m = some r := by
  unfold scanStealthAddresses at h
  split at h
  · exact Except.noConfusion h
  · injection h with h
    rw [← h] at hr
    obtain ⟨m, hm, hpm⟩ := List.mem_filterMap.mp hr
    exact ⟨m, hm, hpm⟩

/-- C3: view-tag filter soundness.  Every stealth address a successful scan
returns comes from an input record for which the fully re-derived one-time
address (`rederivedAddress`, the complete pipeline of core.ts lines 126-147)
exists and equals the record's claimed address case-insensitively; a
view-tag match alone never suffices, because membership in the result
already implies the full address match. -/
theorem view_tag_filter_soundness (A : CurveAdapter) (vk vp : List Char)
    (metas : List StealthMetadata) (res : List StealthAddress)
    (h : scanStealthAddresses A vk vp metas = Except.ok res)
    (r : StealthAddress) (hr : r ∈ res) :
    ∃ m ∈ metas, r.address = m.stealthAddress ∧
      ∃ da, rederivedAddress A (ensure0x vk) (ensure0x vp) m = some da ∧
        lcStr da = lcStr m.stealthAddress := by
  obtain ⟨m, hm, hpm⟩ := scan_ok_mem h hr
  obtain ⟨ha, hvt, hep, da, hda, hlc⟩ := processRecord_some_spec hpm
  exact ⟨m, hm, ha, da, hda, hlc⟩

/-- Witness for C3: the toy matched record, with its re-derived address. -/
theorem view_tag_filter_soundness_witness :
    ∃ m ∈ [tMeta], tS.address = m.stealthAddress ∧
      ∃ da, rederivedAddress toyAdapter (ensure0x tVpriv) (ensure0x tVpubHex) m = some da ∧
        lcStr da = lcStr m.stealthAddress := by
  exact view_tag_filter_soundness toyAdapter tVpriv tVpubHex [tMeta] [tS]
    (by decide) tS (by decide)

/-- C10: successful scans echo record fields verbatim.  Each returned
`StealthAddress` carries the record's stored `stealthAddress` string with
its original casing, the record's stored `viewTag` string unchanged, and the
record's `ephemeralPublicKey` normalized only by prepending 0x when the
prefix was absent. -/
theorem scan_results_echo_record_fields (A : CurveAdapter) (vk vp : List Char)
    (metas : List StealthMetadata) (res : List StealthAddress)
    (h : scanStealthAddresses A vk vp metas = Except.ok res)
    (r : StealthAddress) (hr : r ∈ res) :
    ∃ m ∈ metas, r.address = m.stealthAddress ∧ r.viewTag = m.viewTag ∧
      r.ephemeralPublicKey = ensure0x m.ephemeralPublicKey := by
  obtain ⟨m, hm, hpm⟩ := scan_ok_mem h hr
  obtain ⟨ha, hvt, hep, -⟩ := processRecord_some_spec hpm
  exact ⟨m, hm, ha, hvt, hep⟩

/-- Witness for C10: the uppercase-stored record is echoed with its stored
casing and its ephemeral key picks up the 0x prefix it already had. -/
theorem scan_results_echo_record_fields_witness :
    ∃ m ∈ [tMetaUpper],
      (⟨tUpperAddr, tEphPubHex, ['a', 'a']⟩ : StealthAddress).address = m.stealthAddress ∧
      (⟨tUpperAddr, tEphPubHex, ['a', 'a']⟩ : StealthAddress).viewTag = m.viewTag ∧
      (⟨tUpperAddr, tEphPubHex, ['a', 'a']⟩ : StealthAddress).ephemeralPublicKey =
        ensure0x m.ephemeralPublicKey := by
  exact scan_results_echo_record_fields toyAdapter tVpriv tVpubHex [tMetaUpper]
    [⟨tUpperAddr, tEphPubHex, ['a', 'a']⟩] (by decide) _ (by decide)

/-- C4: spend-key self-verification.  Given that the derivation pipeline
reaches the final self-check with candidate pair (`spk`, `da`),
`deriveStealthSpendingKey` returns `spk` exactly when `da` matches the
supplied address case-insensitively and fails with the
derived-address-mismatch error otherwise; moreover any scalar it returns
re-derives (through the account formatter) an address equal to the supplied
one case-insensitively. -/
theorem spend_key_self_verification (A : CurveAdapter)
    (spendingPrivateKey viewingPrivateKey stealthAddress ephemeralPublicKey : List Char)
    (viewingPublicKey? : Option (List Char)) (spk da : List Char)
    (hc : deriveCandidate A viewingPrivateKey ephemeralPublicKey viewingPublicKey? =
      some (spk, da)) :
    deriveStealthSpendingKey A spendingPrivateKey viewingPrivateKey stealthAddress
        ephemeralPublicKey viewingPublicKey? =
      (if lcStr da = lcStr stealthAddress then Except.ok spk
       else Except.error DeriveError.derivedAddressMismatch) ∧
    ∀ k, deriveStealthSpendingKey A spendingPrivateKey viewingPrivateKey stealthAddress
        ephemeralPublicKey viewingPublicKey? = Except.ok k →
      A.privateKeyToAccountAddress k = some da ∧ lcStr da = lcStr stealthAddress := by
  obtain ⟨h1, h2⟩ := deriveCandidate_spec hc spendingPrivateKey stealthAddress
  refine ⟨h1, ?_⟩
  intro k hk
  rw [h1] at hk
  by_cases hlc : lcStr da = lcStr stealthAddress
  · rw [if_pos hlc] at hk
    injection hk with hk
    subst hk
    exact ⟨h2, hlc⟩
  · rw [if_neg hlc] at hk
    exact Except.noConfusion hk

/-- Witness for C4: a mismatched target address makes the toy derivation
fail with the derived-address-mismatch error. -/
theorem spend_key_self_verification_witness :
    deriveStealthSpendingKey toyAdapter tSpriv tVpriv
      ('0' :: 'x' :: List.replicate 40 'c') (uint8ArrayToHex tEb) none =
      Except.error DeriveError.derivedAddressMismatch := by
  have h := (spend_key_self_verification toyAdapter tSpriv tVpriv
    ('0' :: 'x' :: List.replicate 40 'c') (uint8ArrayToHex tEb) none
    toyKeccakOut toyAccountAddr (by decide)).1
  rw [h]
  decide

/-- C9 counterexample: concrete values returned by the public API that are
not lowercase-0x-prefixed hex.  The scanner echoes an uppercase stored
address verbatim, and the view tag produced by generation is two bare hex
characters with no 0x prefix. -/
theorem canonical_output_counterexample :
    scanStealthAddresses toyAdapter tVpriv tVpubHex [tMetaUpper] =
      Except.ok [⟨tUpperAddr, tEphPubHex, ['a', 'a']⟩] ∧
    lcStr tUpperAddr ≠ tUpperAddr ∧
    (generateStealthAddress toyAdapter tVpubHex none (some tEph) []).toOption.map
      (fun s => startsWith0x s.viewTag) = some false := by
  decide

/-- C9 (amended): the key and secret values the API returns are canonical
lowercase-0x hex — the public keys from `generateStealthKeys` and the
ephemeral public key from `generateStealthAddress` by construction, the
scalar from `deriveStealthSpendingKey` by the keccak output format — but the
view tag is two bare lowercase hex characters with no 0x prefix, a scan
result's ephemeral key is only guaranteed the 0x prefix (its hex digits are
echoed from the record), and addresses keep the casing of the account
formatter (generation) or of the stored record (scanning). -/
theorem canonical_output_encoding (A : CurveAdapter) (hK : KeccakGood A) :
    (∀ rs rv K, generateStealthKeys A rs rv = some K →
      IsLowerHex0x K.spendingPublicKey ∧ IsLowerHex0x K.viewingPublicKey) ∧
    (∀ v sp e frk S, generateStealthAddress A v sp e frk = Except.ok S →
      IsLowerHex0x S.ephemeralPublicKey ∧ startsWith0x S.viewTag = false ∧
      S.viewTag.length = 2 ∧ ∀ c ∈ S.viewTag, isHexLower c = true) ∧
    (∀ sk vk sa ep vp k, deriveStealthSpendingKey A sk vk sa ep vp = Except.ok k →
      IsLowerHex0x k ∧ k.length = 66) ∧
    (∀ vk vp metas res, scanStealthAddresses A vk vp metas = Except.ok res →
      ∀ r ∈ res, startsWith0x r.ephemeralPublicKey = true) := by
  refine ⟨?_, ?_, ?_, ?_⟩
  · intro rs rv K hkeys
    obtain ⟨-, -, hsp, hvp⟩ := generateStealthKeys_shape hkeys
    obtain ⟨bs1, hb1⟩ := derivePublicKey_some_shape hsp
    obtain ⟨bs2, hb2⟩ := derivePublicKey_some_shape hvp
    rw [hb1, hb2]
    exact ⟨IsLowerHex0x_uint8ArrayToHex bs1, IsLowerHex0x_uint8ArrayToHex bs2⟩
  · intro v sp e frk S hgen
    obtain ⟨⟨eb, hepb⟩, x, hvt⟩ := generateStealthAddress_ok_shape hgen
    obtain ⟨h1, h2, h3⟩ := viewTag_facts hK x
    rw [hepb, hvt]
    exact ⟨IsLowerHex0x_uint8ArrayToHex eb, h1, h2, h3⟩
  · intro sk vk sa ep vp k hk
    obtain ⟨x, rfl⟩ := deriveStealthSpendingKey_ok_shape hk
    exact ⟨⟨(hK x).2.1, (hK x).2.2⟩, (hK x).1⟩
  · intro vk vp metas res h r hr
    obtain ⟨m, -, hpm⟩ := scan_ok_mem h hr
    obtain ⟨-, -, hep, -⟩ := processRecord_some_spec hpm
    rw [hep]
    exact startsWith0x_ensure0x m.ephemeralPublicKey

/-- Witness for C9: the toy spend-key derivation returns the canonical
lowercase-0x scalar. -/
theorem canonical_output_encoding_witness :
    IsLowerHex0x toyKeccakOut ∧ toyKeccakOut.length = 66 := by
  exact (canonical_output_encoding toyAdapter toyKeccakGood).2.2.1
    tSpriv tVpriv toyAccountAddr (uint8ArrayToHex tEb) none toyKeccakOut (by decide)

end StealthSDK
